import Mathlib

/-!
Shallow embedding of the GitHub repository importer
(src/backend/routes/github.js) and proofs about its behaviour.

JavaScript strings are modelled as `List Char`, byte buffers as `List Nat`,
and the HTTP layer as an explicit function from URL to response.  Every
definition follows the corresponding JavaScript function; line references
point into src/backend/routes/github.js.
-/

namespace GH

/-- JavaScript strings are sequences of characters. -/
abbrev Str := List Char

-- ─── Constants (github.js lines 13-26) ───────────────────────────────

/-- Default of `parseInt(process.env.MAX_REPO_SIZE_MB) || 100` when the
environment variable is unset. -/
def MAX_REPO_SIZE_MB : Nat := 100

def MAX_REPO_SIZE_BYTES : Nat := MAX_REPO_SIZE_MB * 1024 * 1024

def MAX_SINGLE_FILE_BYTES : Nat := 10 * 1024 * 1024

def MAX_FILE_COUNT : Nat := 500

def BLOCKED_EXTENSIONS : List Str :=
  [".exe".toList, ".bat".toList, ".cmd".toList, ".sh".toList, ".msi".toList,
   ".dll".toList, ".so".toList, ".bin".toList, ".com".toList, ".scr".toList,
   ".pif".toList, ".vbs".toList, ".wsf".toList, ".ps1".toList]

def RATE_LIMIT_MAX : Nat := 5

def RATE_LIMIT_WINDOW : Nat := 60000

-- ─── JavaScript string primitives ────────────────────────────────────

/-- JavaScript `str.split(sep)` for a single-character separator:
`"".split('/') = [""]`, and separators at either end produce empty
segments. -/
def splitOnChar (sep : Char) : Str → List Str
  | [] => [[]]
  | c :: cs =>
    if c = sep then [] :: splitOnChar sep cs
    else
      match splitOnChar sep cs with
      | [] => [[c]]
      | s :: ss => (c :: s) :: ss

/-- JavaScript `Array.prototype.join(sep)` for a single-character
separator. -/
def joinWith (sep : Char) : List Str → Str
  | [] => []
  | [s] => s
  | s :: rest => s ++ sep :: joinWith sep rest

/-- JavaScript `str.startsWith(pre)`. -/
def strStartsWith : Str → Str → Bool
  | _, [] => true
  | [], _ :: _ => false
  | c :: cs, p :: ps => c = p && strStartsWith cs ps

/-- JavaScript `str.trim()` (whitespace at both ends removed; the ASCII
whitespace characters are the only ones arising in this development). -/
def jsTrim (s : Str) : Str :=
  ((s.dropWhile Char.isWhitespace).reverse.dropWhile Char.isWhitespace).reverse

-- ─── Reference Parser (github.js lines 37-70) ────────────────────────

structure RepoRef where
  owner : Str
  repo : Str
  branch : Str
deriving DecidableEq, Repr

/-- The regex test `/^[a-zA-Z0-9._-]+$/.test(s)` of github.js line 64. -/
def validPattern (s : Str) : Bool :=
  !s.isEmpty && s.all (fun c => c.isAlphanum || c = '.' || c = '_' || c = '-')

/-- The `url.replace(/^https?:\/\//, '')` step of github.js line 41. -/
def stripProtocol (s : Str) : Str :=
  if strStartsWith s ("https://".toList) then s.drop ("https://".toList).length
  else if strStartsWith s ("http://".toList) then s.drop ("http://".toList).length
  else s

/-- The `repo.replace(/\.git$/, '')` step of github.js line 55. -/
def stripGitSuffix (s : Str) : Str :=
  if (".git".toList).isSuffixOf s then s.take (s.length - 4) else s

/-- The part of `parseGitHubUrl` from line 51 on, applied to the URL
with host prefix already removed: split on `/`, drop falsy (empty)
segments, read owner/repo/branch and validate the identifiers. -/
def parsePath (url2 : Str) : Option RepoRef :=
  let parts := (splitOnChar '/' url2).filter (fun s => !s.isEmpty)
  if parts.length < 2 then none
  else
    let owner := parts.headD []
    let repo := stripGitSuffix (parts.getD 1 [])
    let branch :=
      if 4 ≤ parts.length && parts.getD 2 [] = "tree".toList then
        joinWith '/' (parts.drop 3)
      else "main".toList
    if validPattern owner && validPattern repo then
      some ⟨owner, repo, branch⟩
    else none

/-- `parseGitHubUrl` (github.js lines 37-70).  The guard on line 44
ensures the first occurrence of `"github.com/"` removed by
`url.replace('github.com/', '')` is the leading prefix. -/
def parseGitHubUrl (rawUrl : Str) : Option RepoRef :=
  let url0 := jsTrim rawUrl
  let url1 := stripProtocol url0
  if strStartsWith url1 ("github.com/".toList) then
    parsePath (url1.drop ("github.com/".toList).length)
  else none

-- ─── Policy Engine helpers (github.js lines 75-102) ──────────────────

/-- The drive-letter test `/^[a-zA-Z]:/.test(s)` of github.js line 89. -/
def isDriveLetter (s : Str) : Bool :=
  match s with
  | c :: d :: _ => c.isAlpha && d = ':'
  | _ => false

/-- The separator normalization `filePath.replace(/\\/g, '/')` of
github.js line 86. -/
def normalizeSeps (filePath : Str) : Str :=
  filePath.map (fun c => if c = '\\' then '/' else c)

/-- `sanitizePath` (github.js lines 84-102): backslashes are normalized
to forward slashes, absolute paths and paths with a `..` segment are
rejected (`null`, modelled as `none`), everything else is returned
normalized. -/
def sanitizePath (filePath : Str) : Option Str :=
  let normalized := normalizeSeps filePath
  if strStartsWith normalized ("/".toList) || isDriveLetter normalized then none
  else if (splitOnChar '/' normalized).any (fun s => s = "..".toList) then none
  else some normalized

-- ─── Node path helpers used by github.js ─────────────────────────────

/-- Index of the last occurrence of a dot in a basename, if any. -/
def lastDotIdx (s : Str) : Option Nat :=
  match s.reverse.findIdx? (fun c => c = '.') with
  | some j => some (s.length - 1 - j)
  | none => none

/-- Node `path.extname` on a POSIX path: trailing slashes are skipped,
the extension runs from the last dot of the basename, and a basename
whose only dot is its first character (for example `.gitignore` or the
literal `..`) has no extension. -/
def extname (p : Str) : Str :=
  let noTrail := (p.reverse.dropWhile (fun c => c = '/')).reverse
  let base := (splitOnChar '/' noTrail).getLastD []
  match lastDotIdx base with
  | none => []
  | some i => if i = 0 || base = "..".toList then [] else base.drop i

/-- Node `path.basename` on a POSIX path. -/
def basename (p : Str) : Str :=
  let noTrail := (p.reverse.dropWhile (fun c => c = '/')).reverse
  (splitOnChar '/' noTrail).getLastD []

/-- `isBlockedFile` (github.js lines 75-78). -/
def isBlockedFile (filename : Str) : Bool :=
  let ext := (extname filename).map Char.toLower
  BLOCKED_EXTENSIONS.contains ext

/-- The extension-to-MIME table of `getMimeType` (github.js lines 107-128). -/
def mimeMap : List (Str × Str) :=
  [(".js", "text/javascript"), (".jsx", "text/javascript"),
   (".ts", "application/typescript"), (".tsx", "application/typescript"),
   (".json", "application/json"), (".html", "text/html"),
   (".css", "text/css"), (".scss", "text/css"),
   (".md", "text/markdown"), (".txt", "text/plain"),
   (".xml", "application/xml"), (".svg", "image/svg+xml"),
   (".png", "image/png"), (".jpg", "image/jpeg"), (".jpeg", "image/jpeg"),
   (".gif", "image/gif"), (".webp", "image/webp"),
   (".pdf", "application/pdf"), (".zip", "application/zip"),
   (".yaml", "text/yaml"), (".yml", "text/yaml"),
   (".toml", "text/plain"), (".lock", "text/plain"),
   (".py", "text/x-python"), (".rb", "text/x-ruby"),
   (".go", "text/x-go"), (".rs", "text/x-rust"),
   (".java", "text/x-java"), (".c", "text/x-c"), (".cpp", "text/x-c"),
   (".h", "text/x-c"), (".sh", "text/x-shellscript"),
   (".env", "text/plain"), (".gitignore", "text/plain")].map
    (fun kv => (kv.1.toList, kv.2.toList))

/-- `getMimeType` (github.js lines 107-128). -/
def getMimeType (filename : Str) : Str :=
  let ext := (extname filename).map Char.toLower
  match mimeMap.find? (fun kv => kv.1 = ext) with
  | some kv => kv.2
  | none => "application/octet-stream".toList

-- ─── Archive Extractor (github.js lines 355-419) ─────────────────────

/-- One archive member as exposed by the zip library: its name, whether
it is a directory entry, the uncompressed size from the zip header
(`entry.header.size`), and the decoded bytes (`entry.getData()`). -/
structure ZipEntry where
  entryName : Str
  isDirectory : Bool
  headerSize : Nat
  data : List Nat
deriving DecidableEq, Repr

/-- One element of the `files` array built during extraction
(github.js lines 412-418). -/
structure FileRec where
  relativePath : Str
  filename : Str
  buffer : List Nat
  size : Nat
  mimetype : Str
deriving DecidableEq, Repr

/-- The mutable locals of the extraction loop: `files`, `totalSize`,
`skippedCount` (github.js lines 356-358). -/
structure ExtractState where
  files : List FileRec
  totalSize : Nat
  skippedCount : Nat
deriving DecidableEq, Repr

/-- The root folder stripped from every entry:
`entries.length > 0 ? entries[0].entryName.split('/')[0] + '/' : ''`
(github.js line 362). -/
def zipRoot (entries : List ZipEntry) : Str :=
  match entries with
  | [] => []
  | e :: _ => (splitOnChar '/' e.entryName).headD [] ++ ['/']

/-- Root-folder stripping (github.js lines 369-372); the `root ≠ []`
test models the JavaScript truthiness check `if (rootPrefix && ...)`. -/
def stripRoot (root : Str) (name : Str) : Str :=
  if root ≠ [] && strStartsWith name root then name.drop root.length else name

/-- One iteration of the extraction loop (github.js lines 364-419). -/
def processEntry (root : Str) (st : ExtractState) (e : ZipEntry) : ExtractState :=
  if e.isDirectory then st
  else
    let relativePath := stripRoot root e.entryName
    if relativePath = [] then st
    else
      match sanitizePath relativePath with
      | none => { st with skippedCount := st.skippedCount + 1 }
      | some safePath =>
        if isBlockedFile safePath then { st with skippedCount := st.skippedCount + 1 }
        else if MAX_SINGLE_FILE_BYTES < e.headerSize then
          { st with skippedCount := st.skippedCount + 1 }
        else if MAX_FILE_COUNT ≤ st.files.length then
          { st with skippedCount := st.skippedCount + 1 }
        else
          let buffer := e.data
          if buffer.length = 0 then { st with skippedCount := st.skippedCount + 1 }
          else
            { files := st.files ++
                [⟨safePath, basename safePath, buffer, buffer.length, getMimeType safePath⟩],
              totalSize := st.totalSize + buffer.length,
              skippedCount := st.skippedCount }

/-- The whole extraction pass over the archive entries. -/
def extractFiles (entries : List ZipEntry) : ExtractState :=
  entries.foldl (processEntry (zipRoot entries)) ⟨[], 0, 0⟩

/-- An entry that reaches the policy checks: not a directory and with a
non-empty path after root stripping; every other entry is skipped
silently. -/
def isCandidate (root : Str) (e : ZipEntry) : Bool :=
  !e.isDirectory && !(stripRoot root e.entryName).isEmpty

-- ─── Remote Fetcher (github.js lines 133-200) ────────────────────────

/-- An HTTP response as observed by the fetch helpers: status code, the
optional `Location` header, and the body bytes. -/
structure HttpResponse where
  statusCode : Nat
  redirectTo : Option Str
  body : List Nat
deriving DecidableEq, Repr

/-- A deterministic model of the network: each URL yields one response. -/
abbrev Network := Str → HttpResponse

/-- `fetchBuffer` (github.js lines 133-170).  A 3xx response carrying a
`Location` header is re-fetched recursively; the JavaScript recursion is
unbounded, so it is modelled with explicit fuel.  A non-200 terminal
response rejects with `HTTP <code>`; the streaming size check rejects a
body larger than `MAX_REPO_SIZE_BYTES`. -/
def fetchBuffer (net : Network) : Nat → Str → Except String (List Nat)
  | 0, _ => Except.error "redirect recursion exhausted"
  | fuel + 1, url =>
    if 300 ≤ (net url).statusCode ∧ (net url).statusCode < 400
        ∧ (net url).redirectTo.isSome then
      fetchBuffer net fuel ((net url).redirectTo.getD [])
    else if (net url).statusCode ≠ 200 then
      Except.error ("HTTP " ++ toString (net url).statusCode)
    else if MAX_REPO_SIZE_BYTES < (net url).body.length then
      Except.error ("Repository archive exceeds " ++ toString MAX_REPO_SIZE_MB ++ "MB limit")
    else Except.ok (net url).body

/-- `fetchJson` (github.js lines 175-200).  The body parse (`JSON.parse`)
is an external primitive, passed in as `parseBody`.  Note there is no
redirect branch: any non-200 status, 3xx included, rejects. -/
def fetchJson {α : Type} (net : Network) (parseBody : List Nat → Option α)
    (url : Str) : Except String α :=
  if (net url).statusCode ≠ 200 then
    Except.error ("HTTP " ++ toString (net url).statusCode)
  else
    match parseBody (net url).body with
    | some v => Except.ok v
    | none => Except.error "Invalid JSON response"

-- ─── Import Orchestrator (github.js lines 266-507) ───────────────────

/-- The archive URL template of github.js line 323: the branch string is
interpolated verbatim. -/
def zipUrl (owner repo branch : Str) : Str :=
  "https://github.com/".toList ++ owner ++ '/' :: repo ++
    "/archive/refs/heads/".toList ++ branch ++ ".zip".toList

/-- The metadata URL template of github.js line 305. -/
def apiRepoUrl (owner repo : Str) : Str :=
  "https://api.github.com/repos/".toList ++ owner ++ '/' :: repo

/-- `const branch = requestedBranch || parsed.branch` (github.js line
292): JavaScript `||` treats the empty string as falsy. -/
def effectiveBranch (requestedBranch : Option Str) (parsedBranch : Str) : Str :=
  match requestedBranch with
  | some b => if b = [] then parsedBranch else b
  | none => parsedBranch

/-- The archive download step with its `master` fallback (github.js
lines 322-345).  The second component lists the archive URLs the route
attempts, in order. -/
def downloadArchive (net : Network) (fuel : Nat) (owner repo branch : Str) :
    Except String (List Nat) × List Str :=
  let firstUrl := zipUrl owner repo branch
  match fetchBuffer net fuel firstUrl with
  | Except.ok zipBuffer => (Except.ok zipBuffer, [firstUrl])
  | Except.error _ =>
    if branch = "main".toList then
      let fallbackUrl := zipUrl owner repo ("master".toList)
      match fetchBuffer net fuel fallbackUrl with
      | Except.ok zipBuffer => (Except.ok zipBuffer, [firstUrl, fallbackUrl])
      | Except.error _ =>
        (Except.error "Could not download repository. Branch not found. Try specifying a branch.",
         [firstUrl, fallbackUrl])
    else
      (Except.error "Could not download repository. Branch not found.", [firstUrl])

/-- The fields of the repository metadata JSON the route reads. -/
structure RepoMeta where
  size : Nat
deriving DecidableEq, Repr

/-- The result of one Cloudinary upload (`uploadToCloudinary`, github.js
lines 235-263); a failed upload is observed as `none` by the catch on
line 461. -/
structure CloudinaryResult where
  publicId : Str
  url : Str
deriving DecidableEq, Repr

/-- One element of `uploadedFiles` (github.js lines 451-460). -/
structure UploadedFile where
  filename : Str
  originalName : Str
  mimetype : Str
  size : Nat
  pathUrl : Str
  publicId : Str
  relativePath : Str
deriving DecidableEq, Repr

/-- The upload phase (github.js lines 448-474) as a function of the
per-index upload outcome `u`: index `i` succeeds with a store result or
fails (`none`, mapped to `null` and filtered out); surviving records
keep input order. -/
def uploadOutcome (u : Nat → Option CloudinaryResult) (files : List FileRec) :
    List UploadedFile :=
  files.enum.filterMap (fun p =>
    (u p.1).map (fun r =>
      { filename := r.publicId, originalName := p.2.filename,
        mimetype := p.2.mimetype, size := p.2.size, pathUrl := r.url,
        publicId := r.publicId, relativePath := p.2.relativePath }))

/-- The JSON body of the 201 response (github.js lines 486-502),
restricted to the fields this development reasons about. -/
structure ImportResponse where
  fileCount : Nat
  skippedCount : Nat
  totalSize : Nat
  owner : Str
  repo : Str
  branch : Str
deriving DecidableEq, Repr

/-- Terminal outcome of one import invocation: a 201 payload or an
error status with its message. -/
inductive ImportOutcome
  | success (resp : ImportResponse)
  | failure (status : Nat) (error : String)
deriving DecidableEq, Repr

/-- Steps 4-7 of the route (github.js lines 355-502): extraction, the
zero-file guard, upload, the zero-upload guard, and the 201 payload. -/
def buildResponse (owner repo branch : Str) (entries : List ZipEntry)
    (u : Nat → Option CloudinaryResult) : ImportOutcome :=
  let ex := extractFiles entries
  if ex.files.isEmpty then
    ImportOutcome.failure 400 "No valid files found in the repository"
  else
    let uploadedFiles := uploadOutcome u ex.files
    if uploadedFiles.isEmpty then
      ImportOutcome.failure 500 "Failed to upload repository files"
    else
      ImportOutcome.success
        { fileCount := uploadedFiles.length,
          skippedCount := ex.skippedCount,
          totalSize := ex.totalSize,
          owner := owner, repo := repo, branch := branch }

/-- The body of `router.post('/import')` after the rate-limit gate
(github.js lines 277-502).  External effects are parameters: the
network, the metadata JSON parse, the zip decode (`new AdmZip` +
`getEntries`), and the per-index upload outcome.  Container persistence
does not influence any response field modelled here. -/
def importRoute (net : Network) (fuel : Nat)
    (parseMeta : List Nat → Option RepoMeta)
    (decodeZip : List Nat → Option (List ZipEntry))
    (u : Nat → Option CloudinaryResult)
    (repoUrl : Str) (requestedBranch : Option Str) : ImportOutcome :=
  match parseGitHubUrl repoUrl with
  | none => ImportOutcome.failure 400 "Invalid GitHub URL. Use format: https://github.com/owner/repo"
  | some parsed =>
    let owner := parsed.owner
    let repo := parsed.repo
    let branch := effectiveBranch requestedBranch parsed.branch
    match fetchJson net parseMeta (apiRepoUrl owner repo) with
    | Except.error _ => ImportOutcome.failure 404 "Repository not found"
    | Except.ok repoMeta =>
      if MAX_REPO_SIZE_BYTES < repoMeta.size * 1024 then
        ImportOutcome.failure 413 "Repository is too large"
      else
        match (downloadArchive net fuel owner repo branch).1 with
        | Except.error e => ImportOutcome.failure 404 e
        | Except.ok zipBuffer =>
          match decodeZip zipBuffer with
          | none => ImportOutcome.failure 500 "Failed to process repository archive"
          | some entries => buildResponse owner repo branch entries u

-- ─── Rate Limiter (github.js lines 205-220) ──────────────────────────

/-- One `rateLimitMap` entry: `{ count, resetTime }`. -/
structure RateEntry where
  count : Nat
  resetTime : Nat
deriving DecidableEq, Repr

/-- `checkRateLimit` (github.js lines 205-220): returns the decision and
the updated map. -/
def checkRateLimit (now : Nat) (ip : Str) (m : Str → Option RateEntry) :
    Bool × (Str → Option RateEntry) :=
  match m ip with
  | none => (true, fun x => if x = ip then some ⟨1, now + RATE_LIMIT_WINDOW⟩ else m x)
  | some entry =>
    if entry.resetTime < now then
      (true, fun x => if x = ip then some ⟨1, now + RATE_LIMIT_WINDOW⟩ else m x)
    else if RATE_LIMIT_MAX ≤ entry.count then (false, m)
    else (true, fun x => if x = ip then some ⟨entry.count + 1, entry.resetTime⟩ else m x)

/-- Run a sequence of rate-limit checks for one client at the given
times, collecting the decisions and the final map. -/
def runRateChecks (ip : Str) : List Nat → (Str → Option RateEntry) →
    List Bool × (Str → Option RateEntry)
  | [], m => ([], m)
  | t :: ts, m =>
    let step := checkRateLimit t ip m
    let rest := runRateChecks ip ts step.2
    (step.1 :: rest.1, rest.2)

-- ─── Bulk upload scheduling (github.js lines 448-474) ────────────────

/-- Observable scheduling events of the upload phase: `issue i` when the
upload of file `i` is started (that is, when `uploadToCloudinary` is
invoked), `complete i` when its promise is awaited to completion. -/
inductive UploadEvent
  | issue (i : Nat)
  | complete (i : Nat)
deriving DecidableEq, Repr

def BATCH_SIZE : Nat := 10

/-- `const uploadPromises = files.map(async (file) => ...)` (github.js
line 448): `Array.prototype.map` invokes the async callback
synchronously for every element in order, and each callback runs up to
its first `await`, so `uploadToCloudinary` is invoked — the upload is
issued — for every file before `map` returns. -/
def mapIssueAll (indices : List Nat) (trace : List UploadEvent) :
    List Nat × List UploadEvent :=
  (indices, trace ++ indices.map UploadEvent.issue)

/-- The batching loop of github.js lines 470-474, with explicit fuel to
keep the recursion structural: each iteration awaits one slice of
`BATCH_SIZE` pending promises.  Fuel at least the number of pending
promises always suffices, since every iteration drops a non-empty
slice. -/
def batchLoopFuel : Nat → List Nat → List UploadEvent → List UploadEvent
  | 0, _, trace => trace
  | _ + 1, [], trace => trace
  | fuel + 1, p :: ps, trace =>
    batchLoopFuel fuel ((p :: ps).drop BATCH_SIZE)
      (trace ++ ((p :: ps).take BATCH_SIZE).map UploadEvent.complete)

/-- The batching loop of github.js lines 470-474: pending promises are
awaited in slices of `BATCH_SIZE`. -/
def batchLoop (pending : List Nat) (trace : List UploadEvent) : List UploadEvent :=
  batchLoopFuel pending.length pending trace

/-- The full event trace of the upload phase for `n` files. -/
def uploadPhaseTrace (n : Nat) : List UploadEvent :=
  let started := mapIssueAll (List.range n) []
  batchLoop started.1 started.2

-- ─── Concrete fixtures used by counterexamples and witnesses ─────────

/-- A network whose every response is a 404. -/
def netAll404 : Network := fun _ => ⟨404, none, []⟩

def startUrlC3 : Str := "http://r.example/a".toList

def targetUrlC3 : Str := "http://r.example/b".toList

/-- A network redirecting `startUrlC3` to `targetUrlC3`, which serves a
one-byte body. -/
def netRedirect : Network := fun url =>
  if url = startUrlC3 then ⟨301, some targetUrlC3, []⟩
  else ⟨200, none, [42]⟩

/-- A network where the metadata endpoint for `o/r` answers, the `main`
archive is missing (404) and the `master` archive serves three bytes. -/
def netMainFails : Network := fun url =>
  if url = zipUrl ("o".toList) ("r".toList) ("master".toList) then ⟨200, none, [9, 9, 9]⟩
  else if url = apiRepoUrl ("o".toList) ("r".toList) then ⟨200, none, []⟩
  else ⟨404, none, []⟩

def parseMetaFix : List Nat → Option RepoMeta := fun _ => some ⟨0⟩

/-- The single-file archive served by `netMainFails` for branch
`master`. -/
def zipEntriesFix : List ZipEntry :=
  [⟨"r-master/README.md".toList, false, 3, [104, 105, 33]⟩]

def decodeZipFix : List Nat → Option (List ZipEntry) := fun b =>
  if b = [9, 9, 9] then some zipEntriesFix else none

def uploadAllOk : Nat → Option CloudinaryResult :=
  fun _ => some ⟨"pid".toList, "https://store.example/pid".toList⟩

/-- A two-file extraction input and an upload outcome failing on the
second file, for the partial-failure witnesses. -/
def zipEntriesTwo : List ZipEntry :=
  [⟨"r-main/a.md".toList, false, 2, [10, 20]⟩,
   ⟨"r-main/b.md".toList, false, 5, [1, 2, 3, 4, 5]⟩]

def uploadFailSecond : Nat → Option CloudinaryResult := fun i =>
  if i = 0 then some ⟨"pid0".toList, "https://store.example/pid0".toList⟩ else none

-- ─── Theorems: string primitives ─────────────────────────────────────

theorem splitOnChar_ne_nil (sep : Char) (s : Str) : splitOnChar sep s ≠ [] := by
  cases s with
  | nil => simp [splitOnChar]
  | cons c cs =>
    simp only [splitOnChar]
    split
    · simp
    · split <;> simp

theorem splitOnChar_of_not_mem (sep : Char) (s : Str) (h : sep ∉ s) :
    splitOnChar sep s = [s] := by
  induction s with
  | nil => rfl
  | cons c cs ih =>
    simp only [List.mem_cons, not_or] at h
    have hc : ¬c = sep := fun hc => h.1 hc.symm
    simp only [splitOnChar, if_neg hc, ih h.2]

theorem splitOnChar_append_cons (sep : Char) (xs ys : Str) (h : sep ∉ xs) :
    splitOnChar sep (xs ++ sep :: ys) = xs :: splitOnChar sep ys := by
  induction xs with
  | nil => simp [splitOnChar]
  | cons c cs ih =>
    simp only [List.mem_cons, not_or] at h
    have hc : ¬c = sep := fun hc => h.1 hc.symm
    simp only [List.cons_append, splitOnChar, if_neg hc, List.append_eq, ih h.2]

theorem splitOnChar_joinWith (sep : Char) (parts : List Str)
    (hne : parts ≠ []) (h : ∀ p ∈ parts, sep ∉ p) :
    splitOnChar sep (joinWith sep parts) = parts := by
  induction parts with
  | nil => exact absurd rfl hne
  | cons p rest ih =>
    cases rest with
    | nil =>
      simp only [joinWith]
      exact splitOnChar_of_not_mem sep p (h p (by simp))
    | cons q qs =>
      have hstep : joinWith sep (p :: q :: qs) = p ++ sep :: joinWith sep (q :: qs) := rfl
      rw [hstep, splitOnChar_append_cons sep p _ (h p (by simp)),
        ih (by simp) (fun r hr => h r (List.mem_cons_of_mem p hr))]

theorem strStartsWith_append (xs ys : Str) : strStartsWith (xs ++ ys) xs = true := by
  induction xs with
  | nil => cases ys <;> rfl
  | cons c cs ih => simp [strStartsWith, ih]

theorem jsTrim_of_no_whitespace (s : Str) (h : ∀ c ∈ s, c.isWhitespace = false) :
    jsTrim s = s := by
  have h1 : s.dropWhile Char.isWhitespace = s := by
    cases s with
    | nil => rfl
    | cons c cs =>
      rw [List.dropWhile_cons_of_neg]
      simp [h c (by simp)]
  have h2 : s.reverse.dropWhile Char.isWhitespace = s.reverse := by
    cases hr : s.reverse with
    | nil => rfl
    | cons c cs =>
      rw [List.dropWhile_cons_of_neg]
      have : c ∈ s := by
        rw [← List.mem_reverse, hr]; simp
      simp [h c this]
  rw [jsTrim, h1, h2, List.reverse_reverse]

theorem mem_joinWith (sep : Char) (parts : List Str) (c : Char)
    (h : c ∈ joinWith sep parts) : c = sep ∨ ∃ p ∈ parts, c ∈ p := by
  induction parts with
  | nil => simp [joinWith] at h
  | cons p rest ih =>
    cases rest with
    | nil => exact Or.inr ⟨p, by simp, by simpa [joinWith] using h⟩
    | cons q qs =>
      have hm : c ∈ p ++ sep :: joinWith sep (q :: qs) := h
      rcases List.mem_append.mp hm with hp | hrest
      · exact Or.inr ⟨p, by simp, hp⟩
      rcases List.mem_cons.mp hrest with rfl | hj
      · exact Or.inl rfl
      rcases ih hj with h1 | ⟨r, hr1, hr2⟩
      · exact Or.inl h1
      · exact Or.inr ⟨r, List.mem_cons_of_mem _ hr1, hr2⟩

-- ─── Theorems: Reference Parser ──────────────────────────────────────

theorem validPattern_props (s : Str) (h : validPattern s = true) :
    s ≠ [] ∧ '/' ∉ s ∧ ∀ c ∈ s, c.isWhitespace = false := by
  simp only [validPattern, Bool.and_eq_true, List.all_eq_true] at h
  obtain ⟨hne, hall⟩ := h
  refine ⟨?_, ?_, ?_⟩
  · intro hnil
    rw [hnil] at hne
    simp at hne
  · intro hmem
    exact absurd (hall '/' hmem) (by decide)
  · intro c hc
    have hp := hall c hc
    cases hw : c.isWhitespace
    · rfl
    · exfalso
      have hcases := hw
      simp only [Char.isWhitespace, Bool.or_eq_true, decide_eq_true_eq] at hcases
      rcases hcases with ((rfl | rfl) | rfl) | rfl <;> exact absurd hp (by decide)

theorem validPattern_stripGit (s : Str) (h : validPattern s = true)
    (hne : stripGitSuffix s ≠ []) : validPattern (stripGitSuffix s) = true := by
  simp only [validPattern, Bool.and_eq_true, List.all_eq_true] at h ⊢
  obtain ⟨_, hall⟩ := h
  refine ⟨by simpa [List.isEmpty_iff] using hne, ?_⟩
  intro c hc
  unfold stripGitSuffix at hc
  split at hc
  · exact hall c (List.take_subset _ _ hc)
  · exact hall c hc

theorem parseGitHubUrl_host (path : Str)
    (hws : ∀ c ∈ path, c.isWhitespace = false) :
    parseGitHubUrl ("github.com/".toList ++ path) = parsePath path := by
  have htrim : jsTrim ("github.com/".toList ++ path) = "github.com/".toList ++ path := by
    apply jsTrim_of_no_whitespace
    intro c hc
    rcases List.mem_append.mp hc with hl | hr
    · have hlit : ∀ d ∈ "github.com/".toList, d.isWhitespace = false := by decide
      exact hlit c hl
    · exact hws c hr
  have hproto : stripProtocol ("github.com/".toList ++ path)
      = "github.com/".toList ++ path := by
    unfold stripProtocol
    rw [if_neg (by rw [show strStartsWith ("github.com/".toList ++ path)
          ("https://".toList) = false from rfl]; simp),
        if_neg (by rw [show strStartsWith ("github.com/".toList ++ path)
          ("http://".toList) = false from rfl]; simp)]
  unfold parseGitHubUrl
  simp only [htrim, hproto, strStartsWith_append, eq_self_iff_true, if_true, List.drop_left]

theorem parsePath_two (owner repo : Str)
    (ho : validPattern owner = true) (hr : validPattern repo = true)
    (hg : stripGitSuffix repo ≠ []) :
    parsePath (owner ++ '/' :: repo) = some ⟨owner, stripGitSuffix repo, "main".toList⟩ := by
  obtain ⟨hone, hoslash, _⟩ := validPattern_props owner ho
  obtain ⟨hrne, hrslash, _⟩ := validPattern_props repo hr
  have hsplit : splitOnChar '/' (owner ++ '/' :: repo) = [owner, repo] := by
    rw [splitOnChar_append_cons '/' owner repo hoslash,
      splitOnChar_of_not_mem '/' repo hrslash]
  have hfil : List.filter (fun s => !s.isEmpty) [owner, repo] = [owner, repo] := by
    rw [List.filter_eq_self]
    intro a ha
    rcases List.mem_pair.mp ha with rfl | rfl
    · simpa [List.isEmpty_iff] using hone
    · simpa [List.isEmpty_iff] using hrne
  unfold parsePath
  rw [hsplit, hfil]
  simp [ho, validPattern_stripGit repo hr hg]

theorem parsePath_tree (owner repo : Str) (segs : List Str)
    (ho : validPattern owner = true) (hr : validPattern repo = true)
    (hg : stripGitSuffix repo ≠ [])
    (hsegs : segs ≠ [])
    (hseg : ∀ s ∈ segs, s ≠ [] ∧ '/' ∉ s) :
    parsePath (owner ++ '/' :: (repo ++ '/' :: ("tree".toList ++ '/' :: joinWith '/' segs)))
      = some ⟨owner, stripGitSuffix repo, joinWith '/' segs⟩ := by
  obtain ⟨hone, hoslash, _⟩ := validPattern_props owner ho
  obtain ⟨hrne, hrslash, _⟩ := validPattern_props repo hr
  have hsplit : splitOnChar '/'
        (owner ++ '/' :: (repo ++ '/' :: ("tree".toList ++ '/' :: joinWith '/' segs)))
      = owner :: repo :: "tree".toList :: segs := by
    rw [splitOnChar_append_cons '/' owner _ hoslash,
        splitOnChar_append_cons '/' repo _ hrslash,
        splitOnChar_append_cons '/' ("tree".toList) _ (by decide),
        splitOnChar_joinWith '/' segs hsegs (fun s hs => (hseg s hs).2)]
  have hfil : List.filter (fun s => !s.isEmpty) (owner :: repo :: "tree".toList :: segs)
      = owner :: repo :: "tree".toList :: segs := by
    rw [List.filter_eq_self]
    intro a ha
    rcases List.mem_cons.mp ha with rfl | ha
    · simpa [List.isEmpty_iff] using hone
    rcases List.mem_cons.mp ha with rfl | ha
    · simpa [List.isEmpty_iff] using hrne
    rcases List.mem_cons.mp ha with rfl | ha
    · decide
    · simpa [List.isEmpty_iff] using (hseg a ha).1
  have hpos : 1 ≤ segs.length := List.length_pos.mpr hsegs
  unfold parsePath
  rw [hsplit, hfil]
  have hlt : ¬ (owner :: repo :: "tree".toList :: segs).length < 2 := by
    simp
  have h4 : 4 ≤ (owner :: repo :: "tree".toList :: segs).length := by
    simp only [List.length_cons]
    omega
  simp [hlt, h4, ho, validPattern_stripGit repo hr hg, hsegs]

-- ─── Theorems: Archive Extractor ─────────────────────────────────────

theorem processEntry_shape (root : Str) (st : ExtractState) (e : ZipEntry) :
    (processEntry root st e = st ∧ isCandidate root e = false) ∨
    (processEntry root st e = { st with skippedCount := st.skippedCount + 1 }
      ∧ isCandidate root e = true) ∨
    (∃ f : FileRec,
      processEntry root st e
        = { files := st.files ++ [f], totalSize := st.totalSize + f.size,
            skippedCount := st.skippedCount }
      ∧ isCandidate root e = true ∧ st.files.length < MAX_FILE_COUNT) := by
  cases hd : e.isDirectory
  · by_cases hrel : stripRoot root e.entryName = []
    · exact Or.inl ⟨by simp [processEntry, hd, hrel], by simp [isCandidate, hd, hrel]⟩
    · have hcand : isCandidate root e = true := by
        simp [isCandidate, hd, List.isEmpty_iff, hrel]
      cases hs : sanitizePath (stripRoot root e.entryName) with
      | none =>
        exact Or.inr (Or.inl ⟨by simp [processEntry, hd, hrel, hs], hcand⟩)
      | some safe =>
        by_cases hb : isBlockedFile safe = true
        · exact Or.inr (Or.inl ⟨by simp [processEntry, hd, hrel, hs, hb], hcand⟩)
        · by_cases hsz : MAX_SINGLE_FILE_BYTES < e.headerSize
          · exact Or.inr (Or.inl ⟨by simp [processEntry, hd, hrel, hs, hb, hsz], hcand⟩)
          · by_cases hcount : MAX_FILE_COUNT ≤ st.files.length
            · exact Or.inr (Or.inl
                ⟨by simp [processEntry, hd, hrel, hs, hb, hsz, hcount], hcand⟩)
            · by_cases hlen : e.data.length = 0
              · exact Or.inr (Or.inl
                  ⟨by simp [processEntry, hd, hrel, hs, hb, hsz, hcount, hlen], hcand⟩)
              · refine Or.inr (Or.inr
                  ⟨⟨safe, basename safe, e.data, e.data.length, getMimeType safe⟩, ?_, hcand,
                    by omega⟩)
                simp [processEntry, hd, hrel, hs, hb, hsz, hcount, hlen]
  · exact Or.inl ⟨by simp [processEntry, hd], by simp [isCandidate, hd]⟩

theorem processEntry_count (root : Str) (st : ExtractState) (e : ZipEntry) :
    (processEntry root st e).files.length + (processEntry root st e).skippedCount
      = st.files.length + st.skippedCount + (if isCandidate root e then 1 else 0) := by
  rcases processEntry_shape root st e with ⟨he, hc⟩ | ⟨he, hc⟩ | ⟨f, he, hc, _⟩ <;> rw [he, hc]
  · simp
  · simp only [if_true]
    omega
  · simp only [if_true, List.length_append, List.length_cons, List.length_nil]
    omega

theorem processEntry_cap (root : Str) (st : ExtractState) (e : ZipEntry)
    (h : st.files.length ≤ MAX_FILE_COUNT) :
    (processEntry root st e).files.length ≤ MAX_FILE_COUNT := by
  rcases processEntry_shape root st e with ⟨he, _⟩ | ⟨he, _⟩ | ⟨f, he, _, hlt⟩ <;> rw [he]
  · exact h
  · exact h
  · simp only [List.length_append, List.length_cons, List.length_nil]
    omega

theorem processEntry_size (root : Str) (st : ExtractState) (e : ZipEntry)
    (h : st.totalSize = (st.files.map FileRec.size).sum) :
    (processEntry root st e).totalSize
      = ((processEntry root st e).files.map FileRec.size).sum := by
  rcases processEntry_shape root st e with ⟨he, _⟩ | ⟨he, _⟩ | ⟨f, he, _, _⟩ <;> rw [he]
  · exact h
  · exact h
  · simp only [List.map_append, List.sum_append, List.map_cons, List.map_nil,
      List.sum_cons, List.sum_nil]
    omega

theorem extract_fold_count (root : Str) (entries : List ZipEntry) :
    ∀ st : ExtractState,
      (entries.foldl (processEntry root) st).files.length
        + (entries.foldl (processEntry root) st).skippedCount
      = st.files.length + st.skippedCount
        + (entries.filter (fun e => isCandidate root e)).length := by
  induction entries with
  | nil => intro st; simp
  | cons e es ih =>
    intro st
    rw [List.foldl_cons, ih (processEntry root st e)]
    rw [processEntry_count root st e, List.filter_cons]
    by_cases hc : isCandidate root e = true <;> simp [hc] <;> omega

theorem extract_fold_cap (root : Str) (entries : List ZipEntry) :
    ∀ st : ExtractState, st.files.length ≤ MAX_FILE_COUNT →
      (entries.foldl (processEntry root) st).files.length ≤ MAX_FILE_COUNT := by
  induction entries with
  | nil => intro st h; simpa using h
  | cons e es ih =>
    intro st h
    rw [List.foldl_cons]
    exact ih (processEntry root st e) (processEntry_cap root st e h)

theorem extract_fold_size (root : Str) (entries : List ZipEntry) :
    ∀ st : ExtractState, st.totalSize = (st.files.map FileRec.size).sum →
      (entries.foldl (processEntry root) st).totalSize
        = ((entries.foldl (processEntry root) st).files.map FileRec.size).sum := by
  induction entries with
  | nil => intro st h; simpa using h
  | cons e es ih =>
    intro st h
    rw [List.foldl_cons]
    exact ih (processEntry root st e) (processEntry_size root st e h)

-- ─── Theorems: Bulk Uploader counting ────────────────────────────────

theorem length_filterMap_map {α β γ : Type} (f : α → Option β) (g : α → β → γ)
    (l : List α) :
    (l.filterMap (fun a => (f a).map (g a))).length
      = (l.filter (fun a => (f a).isSome)).length := by
  induction l with
  | nil => rfl
  | cons a as ih =>
    cases hf : f a <;>
      simp [List.filterMap_cons, List.filter_cons, hf, ih]

theorem length_filter_add_length_filter_not {α : Type} (p : α → Bool) (l : List α) :
    (l.filter p).length + (l.filter (fun a => !p a)).length = l.length := by
  induction l with
  | nil => rfl
  | cons a as ih =>
    cases hp : p a <;> simp [List.filter_cons, hp] <;> omega

theorem length_filter_enum_fst {α : Type} (q : Nat → Bool) (l : List α) :
    (l.enum.filter (fun p => q p.1)).length = ((List.range l.length).filter q).length := by
  rw [← List.enum_map_fst l, List.filter_map, List.length_map]
  rfl

theorem uploadOutcome_length (u : Nat → Option CloudinaryResult) (files : List FileRec) :
    (uploadOutcome u files).length
      = ((List.range files.length).filter (fun i => (u i).isSome)).length := by
  unfold uploadOutcome
  exact (length_filterMap_map (fun p => u p.1)
    (fun (p : Nat × FileRec) (r : CloudinaryResult) =>
      ({ filename := r.publicId, originalName := p.2.filename,
         mimetype := p.2.mimetype, size := p.2.size, pathUrl := r.url,
         publicId := r.publicId, relativePath := p.2.relativePath } : UploadedFile))
    files.enum).trans (length_filter_enum_fst (fun i => (u i).isSome) files)

-- ─── Claim theorems ──────────────────────────────────────────────────

/-- C5: for every input archive, extraction yields at most
`MAX_FILE_COUNT` (500) admissible entries regardless of how many entries
the archive contains, and every entry rejected by a policy check
(count-limit rejections included) increments `skippedCount` by exactly
one — so admitted entries plus skips exactly exhaust the candidate
entries (the non-directory entries with a non-empty stripped path). -/
theorem c5_extraction_cap_and_skip (entries : List ZipEntry) :
    (extractFiles entries).files.length ≤ MAX_FILE_COUNT ∧
    (extractFiles entries).files.length + (extractFiles entries).skippedCount
      = (entries.filter (fun e => isCandidate (zipRoot entries) e)).length := by
  constructor
  · exact extract_fold_cap (zipRoot entries) entries ⟨[], 0, 0⟩ (by simp [MAX_FILE_COUNT])
  · simpa using extract_fold_count (zipRoot entries) entries ⟨[], 0, 0⟩

/-- C6: `sanitizePath`, after normalizing backslashes to forward
slashes, rejects (returns the rejection value `none`) exactly the paths
with a `..` segment or an absolute form (leading `/` or drive-letter
pattern); every other path is returned normalized. -/
theorem c6_sanitizePath_spec (p : Str) :
    (sanitizePath p = none ↔
      ((splitOnChar '/' (normalizeSeps p)).any (fun s => s = "..".toList)
        || strStartsWith (normalizeSeps p) ("/".toList)
        || isDriveLetter (normalizeSeps p)) = true) ∧
    (sanitizePath p = none ∨ sanitizePath p = some (normalizeSeps p)) := by
  have hval : sanitizePath p
      = (if strStartsWith (normalizeSeps p) ("/".toList) || isDriveLetter (normalizeSeps p) then
           none
         else if (splitOnChar '/' (normalizeSeps p)).any (fun s => s = "..".toList) then none
         else some (normalizeSeps p)) := rfl
  cases hA : strStartsWith (normalizeSeps p) ("/".toList) <;>
  cases hB : isDriveLetter (normalizeSeps p) <;>
  cases hC : (splitOnChar '/' (normalizeSeps p)).any (fun s => s = "..".toList) <;>
  rw [hval, hA, hB, hC] <;> simp

/-- C7: for every valid locator `github.com/{owner}/{repo}` (with no
further segments) `parse` yields branch `"main"`, and for every valid
locator containing `/tree/` followed by at least one segment, `parse`
yields the remaining segments rejoined with `/` as the branch (so a
single slash-free segment `b` yields branch `b`). -/
theorem c7_parse_branch (owner repo : Str) (segs : List Str)
    (ho : validPattern owner = true) (hr : validPattern repo = true)
    (hg : stripGitSuffix repo ≠ [])
    (hsegs : segs ≠ [])
    (hseg : ∀ s ∈ segs, s ≠ [] ∧ '/' ∉ s ∧ ∀ c ∈ s, c.isWhitespace = false) :
    (parseGitHubUrl ("github.com/".toList ++ (owner ++ '/' :: repo))).map RepoRef.branch
      = some ("main".toList) ∧
    (parseGitHubUrl ("github.com/".toList ++
        (owner ++ '/' :: (repo ++ '/' :: ("tree".toList ++ '/' :: joinWith '/' segs))))).map
        RepoRef.branch
      = some (joinWith '/' segs) := by
  obtain ⟨hone, hoslash, hows⟩ := validPattern_props owner ho
  obtain ⟨hrne, hrslash, hrws⟩ := validPattern_props repo hr
  constructor
  · rw [parseGitHubUrl_host _ ?hws1, parsePath_two owner repo ho hr hg]
    · rfl
    case hws1 =>
      intro c hc
      rcases List.mem_append.mp hc with h1 | h2
      · exact hows c h1
      rcases List.mem_cons.mp h2 with rfl | h3
      · decide
      · exact hrws c h3
  · rw [parseGitHubUrl_host _ ?hws2, parsePath_tree owner repo segs ho hr hg hsegs
        (fun s hs => ⟨(hseg s hs).1, (hseg s hs).2.1⟩)]
    · rfl
    case hws2 =>
      intro c hc
      rcases List.mem_append.mp hc with h1 | h2
      · exact hows c h1
      rcases List.mem_cons.mp h2 with rfl | h3
      · decide
      rcases List.mem_append.mp h3 with h4 | h5
      · exact hrws c h4
      rcases List.mem_cons.mp h5 with rfl | h6
      · decide
      rcases List.mem_append.mp h6 with h7 | h8
      · have htree : ∀ d ∈ "tree".toList, d.isWhitespace = false := by decide
        exact htree c h7
      rcases List.mem_cons.mp h8 with rfl | h9
      · decide
      rcases mem_joinWith '/' segs c h9 with rfl | ⟨r, hr1, hr2⟩
      · decide
      · exact (hseg r hr1).2.2 c hr2

/-- Witness for C7 at the concrete locators `github.com/oo/rr` and
`github.com/oo/rr/tree/feat/x2`. -/
theorem c7_parse_branch_witness :
    (parseGitHubUrl ("github.com/oo/rr".toList)).map RepoRef.branch = some ("main".toList) ∧
    (parseGitHubUrl ("github.com/oo/rr/tree/feat/x2".toList)).map RepoRef.branch
      = some ("feat/x2".toList) := by
  have h := c7_parse_branch ("oo".toList) ("rr".toList) ["feat".toList, "x2".toList]
    (by decide) (by decide) (by decide) (by decide) (by decide)
  exact ⟨h.1, h.2⟩

/-- C8: with `RATE_LIMIT_MAX = 5`, six checks from the same client
within one window yield allow five times then deny, and a seventh check
after the window has elapsed yields allow with the entry reset to
count 1. -/
theorem c8_rate_limit_sequence (ip : Str) (t1 t2 t3 t4 t5 t6 t7 : Nat)
    (h2 : t2 ≤ t1 + RATE_LIMIT_WINDOW) (h3 : t3 ≤ t1 + RATE_LIMIT_WINDOW)
    (h4 : t4 ≤ t1 + RATE_LIMIT_WINDOW) (h5 : t5 ≤ t1 + RATE_LIMIT_WINDOW)
    (h6 : t6 ≤ t1 + RATE_LIMIT_WINDOW) (h7 : t1 + RATE_LIMIT_WINDOW < t7) :
    (runRateChecks ip [t1, t2, t3, t4, t5, t6, t7] (fun _ => none)).1
      = [true, true, true, true, true, false, true] ∧
    (runRateChecks ip [t1, t2, t3, t4, t5, t6, t7] (fun _ => none)).2 ip
      = some ⟨1, t7 + RATE_LIMIT_WINDOW⟩ := by
  have n2 : ¬ (t1 + RATE_LIMIT_WINDOW < t2) := not_lt.mpr h2
  have n3 : ¬ (t1 + RATE_LIMIT_WINDOW < t3) := not_lt.mpr h3
  have n4 : ¬ (t1 + RATE_LIMIT_WINDOW < t4) := not_lt.mpr h4
  have n5 : ¬ (t1 + RATE_LIMIT_WINDOW < t5) := not_lt.mpr h5
  have n6 : ¬ (t1 + RATE_LIMIT_WINDOW < t6) := not_lt.mpr h6
  constructor <;>
    simp [runRateChecks, checkRateLimit, n2, n3, n4, n5, n6, h7, RATE_LIMIT_MAX]

/-- Witness for C8: six checks at times 0..5 and a seventh at 60001. -/
theorem c8_rate_limit_sequence_witness :
    (runRateChecks ("ip".toList) [0, 1, 2, 3, 4, 5, 60001] (fun _ => none)).1
      = [true, true, true, true, true, false, true] ∧
    (runRateChecks ("ip".toList) [0, 1, 2, 3, 4, 5, 60001] (fun _ => none)).2 ("ip".toList)
      = some ⟨1, 60001 + RATE_LIMIT_WINDOW⟩ := by
  have h := c8_rate_limit_sequence ("ip".toList) 0 1 2 3 4 5 60001
    (by decide) (by decide) (by decide) (by decide) (by decide) (by decide)
  simpa using h

/-- C10: per-file upload failures are invisible in the response
counters: in a successful import response, `skippedCount` equals the
extraction-stage skip count only, `totalSize` sums the bytes of every
admitted entry (including entries whose upload failed), and `fileCount`
equals the admitted-file count minus exactly the failed uploads. -/
theorem c10_upload_failures_invisible (owner repo branch : Str) (entries : List ZipEntry)
    (u : Nat → Option CloudinaryResult) (resp : ImportResponse)
    (h : buildResponse owner repo branch entries u = ImportOutcome.success resp) :
    resp.skippedCount = (extractFiles entries).skippedCount ∧
    resp.totalSize = ((extractFiles entries).files.map FileRec.size).sum ∧
    resp.fileCount + ((List.range (extractFiles entries).files.length).filter
        (fun i => (u i).isNone)).length = (extractFiles entries).files.length := by
  simp only [buildResponse] at h
  by_cases h1 : (extractFiles entries).files.isEmpty = true
  · rw [if_pos h1] at h
    exact absurd h (by simp)
  · rw [if_neg h1] at h
    by_cases h2 : (uploadOutcome u (extractFiles entries).files).isEmpty = true
    · rw [if_pos h2] at h
      exact absurd h (by simp)
    · rw [if_neg h2] at h
      injection h with h
      subst h
      refine ⟨rfl, ?_, ?_⟩
      · exact extract_fold_size (zipRoot entries) entries ⟨[], 0, 0⟩ rfl
      · rw [uploadOutcome_length]
        have hnone : (List.range (extractFiles entries).files.length).filter
              (fun i => (u i).isNone)
            = (List.range (extractFiles entries).files.length).filter
              (fun i => !(u i).isSome) := by
          apply List.filter_congr
          intro i _
          cases u i <;> rfl
        rw [hnone]
        have hcomp := length_filter_add_length_filter_not (fun i => (u i).isSome)
          (List.range (extractFiles entries).files.length)
        simpa [List.length_range] using hcomp

/-- Witness for C10: a two-file archive whose second upload fails; the
response reports fileCount 1, skippedCount 0, totalSize 7 (both admitted
files counted, the failed one included). -/
theorem c10_upload_failures_invisible_witness :
    (⟨1, 0, 7, "o".toList, "r".toList, "main".toList⟩ : ImportResponse).skippedCount
        = (extractFiles zipEntriesTwo).skippedCount ∧
    (⟨1, 0, 7, "o".toList, "r".toList, "main".toList⟩ : ImportResponse).totalSize
        = ((extractFiles zipEntriesTwo).files.map FileRec.size).sum ∧
    (⟨1, 0, 7, "o".toList, "r".toList, "main".toList⟩ : ImportResponse).fileCount
        + ((List.range (extractFiles zipEntriesTwo).files.length).filter
            (fun i => (uploadFailSecond i).isNone)).length
      = (extractFiles zipEntriesTwo).files.length :=
  c10_upload_failures_invisible ("o".toList) ("r".toList) ("main".toList)
    zipEntriesTwo uploadFailSecond
    ⟨1, 0, 7, "o".toList, "r".toList, "main".toList⟩ (by decide)

/-- C3 counterexample: on a 301 response carrying a `Location` header,
`fetchJson` does not re-fetch the redirect target — it fails with
`HTTP 301` — while `fetchBuffer` on the same network does follow the
redirect and succeeds.  This refutes the claim that both fetch variants
follow redirects. -/
theorem c3_counterexample :
    (300 ≤ (netRedirect startUrlC3).statusCode ∧ (netRedirect startUrlC3).statusCode < 400
      ∧ (netRedirect startUrlC3).redirectTo = some targetUrlC3) ∧
    fetchJson netRedirect (fun b => some b.length) startUrlC3 = Except.error "HTTP 301" ∧
    fetchJson netRedirect (fun b => some b.length) targetUrlC3 = Except.ok 1 ∧
    fetchBuffer netRedirect 2 startUrlC3 = Except.ok [42] := by
  refine ⟨by decide, ?_, ?_, ?_⟩ <;> rfl

/-- C3 as amended: only `fetchBuffer` follows redirects — on a 3xx
response with a `Location` header it re-fetches the target — while
`fetchJson` fails with an `HTTP <code>` error on every non-200 response,
3xx-with-Location included. -/
theorem c3_redirect_behavior {α : Type} (net : Network) (parseBody : List Nat → Option α)
    (url : Str) (fuel : Nat)
    (h3 : 300 ≤ (net url).statusCode ∧ (net url).statusCode < 400)
    (hloc : (net url).redirectTo.isSome = true) :
    fetchBuffer net (fuel + 1) url = fetchBuffer net fuel ((net url).redirectTo.getD []) ∧
    fetchJson net parseBody url = Except.error ("HTTP " ++ toString (net url).statusCode) := by
  constructor
  · show (if 300 ≤ (net url).statusCode ∧ (net url).statusCode < 400
        ∧ (net url).redirectTo.isSome then
      fetchBuffer net fuel ((net url).redirectTo.getD [])
    else if (net url).statusCode ≠ 200 then
      Except.error ("HTTP " ++ toString (net url).statusCode)
    else if MAX_REPO_SIZE_BYTES < (net url).body.length then
      Except.error ("Repository archive exceeds " ++ toString MAX_REPO_SIZE_MB ++ "MB limit")
    else Except.ok (net url).body) = fetchBuffer net fuel ((net url).redirectTo.getD [])
    rw [if_pos ⟨h3.1, h3.2, hloc⟩]
  · unfold fetchJson
    rw [if_pos (by omega)]

/-- Witness for the amended C3 on the concrete redirecting network. -/
theorem c3_redirect_behavior_witness :
    fetchBuffer netRedirect 2 startUrlC3
        = fetchBuffer netRedirect 1 ((netRedirect startUrlC3).redirectTo.getD []) ∧
    fetchJson netRedirect (fun b => some b.length) startUrlC3
        = Except.error ("HTTP " ++ toString (netRedirect startUrlC3).statusCode) := by
  exact c3_redirect_behavior netRedirect (fun b => some b.length) startUrlC3 1
    (by decide) (by decide)

/-- C2 counterexample: the caller explicitly supplies branch `"main"`
in the request body (the parsed URL branch is `"dev"`), the archive
fetch for it fails, yet the `master` fallback IS attempted — and here
succeeds — because the code tests the branch string, not whether a
branch was explicitly requested.  This refutes the claim that an
explicitly supplied branch always fails immediately without a fallback
fetch. -/
theorem c2_counterexample :
    fetchBuffer netMainFails 1 (zipUrl ("o".toList) ("r".toList)
      (effectiveBranch (some ("main".toList)) ("dev".toList))) = Except.error "HTTP 404" ∧
    downloadArchive netMainFails 1 ("o".toList) ("r".toList)
      (effectiveBranch (some ("main".toList)) ("dev".toList))
      = (Except.ok [9, 9, 9],
         [zipUrl ("o".toList) ("r".toList) ("main".toList),
          zipUrl ("o".toList) ("r".toList) ("master".toList)]) := by
  exact ⟨rfl, rfl⟩

/-- C2 as amended: on archive-fetch failure the fallback depends only
on the effective branch string: iff it equals `"main"` (whether derived
or explicitly supplied), one retry against `master` is attempted;
otherwise the download fails immediately with the branch-not-found
error and no fallback fetch. -/
theorem c2_fallback_iff_branch_main (net : Network) (fuel : Nat) (owner repo : Str)
    (requestedBranch : Option Str) (parsedBranch : Str) (e : String)
    (hfail : fetchBuffer net fuel
      (zipUrl owner repo (effectiveBranch requestedBranch parsedBranch)) = Except.error e) :
    (effectiveBranch requestedBranch parsedBranch ≠ "main".toList →
      downloadArchive net fuel owner repo (effectiveBranch requestedBranch parsedBranch)
        = (Except.error "Could not download repository. Branch not found.",
           [zipUrl owner repo (effectiveBranch requestedBranch parsedBranch)])) ∧
    (effectiveBranch requestedBranch parsedBranch = "main".toList →
      (downloadArchive net fuel owner repo (effectiveBranch requestedBranch parsedBranch)).2
        = [zipUrl owner repo (effectiveBranch requestedBranch parsedBranch),
           zipUrl owner repo ("master".toList)]) := by
  constructor
  · intro hb
    simp only [downloadArchive, hfail]
    rw [if_neg hb]
  · intro hb
    simp only [downloadArchive, hfail]
    rw [if_pos hb]
    cases hm : fetchBuffer net fuel (zipUrl owner repo ("master".toList)) <;>
      simp only [hm]

/-- Witness for the amended C2: explicit branch `"dev"` on an
all-404 network fails immediately with a single fetch attempt. -/
theorem c2_fallback_iff_branch_main_witness :
    downloadArchive netAll404 1 ("o".toList) ("r".toList)
        (effectiveBranch (some ("dev".toList)) ("main".toList))
      = (Except.error "Could not download repository. Branch not found.",
         [zipUrl ("o".toList) ("r".toList)
            (effectiveBranch (some ("dev".toList)) ("main".toList))]) := by
  exact (c2_fallback_iff_branch_main netAll404 1 ("o".toList) ("r".toList)
    (some ("dev".toList)) ("main".toList) "HTTP 404" (by rfl)).1 (by decide)

/-- C1 counterexample: with no branch requested, derived branch
`"main"`, the `main` archive fetch failing and the `master` fetch
succeeding, the import completes — but its `repoInfo` reports branch
`"main"`, not `"master"` as the claim states: the `branch` variable is
never updated when the fallback succeeds. -/
theorem c1_counterexample :
    importRoute netMainFails 1 parseMetaFix decodeZipFix uploadAllOk
        ("github.com/o/r".toList) none
      = ImportOutcome.success
          { fileCount := 1, skippedCount := 0, totalSize := 3,
            owner := "o".toList, repo := "r".toList, branch := "main".toList } ∧
    ("main".toList : Str) ≠ "master".toList := by
  exact ⟨by decide, by decide⟩

/-- C1 as amended: when no branch is requested and the derived branch
is `"main"`, a failed `main` fetch followed by a successful `master`
fetch completes the import without error, and the returned result
reports branch `"main"` (the derived branch; the fallback branch name
is not propagated into `repoInfo`). -/
theorem c1_fallback_reports_main (net : Network) (fuel : Nat)
    (parseMeta : List Nat → Option RepoMeta)
    (decodeZip : List Nat → Option (List ZipEntry))
    (u : Nat → Option CloudinaryResult) (repoUrl owner repo : Str)
    (meta : RepoMeta) (body : List Nat) (entries : List ZipEntry) (e : String)
    (hparse : parseGitHubUrl repoUrl = some ⟨owner, repo, "main".toList⟩)
    (hmeta : fetchJson net parseMeta (apiRepoUrl owner repo) = Except.ok meta)
    (hsize : meta.size * 1024 ≤ MAX_REPO_SIZE_BYTES)
    (hmain : fetchBuffer net fuel (zipUrl owner repo ("main".toList)) = Except.error e)
    (hmaster : fetchBuffer net fuel (zipUrl owner repo ("master".toList)) = Except.ok body)
    (hdec : decodeZip body = some entries)
    (hfiles : (extractFiles entries).files ≠ [])
    (hupl : uploadOutcome u (extractFiles entries).files ≠ []) :
    importRoute net fuel parseMeta decodeZip u repoUrl none
      = ImportOutcome.success
          { fileCount := (uploadOutcome u (extractFiles entries).files).length,
            skippedCount := (extractFiles entries).skippedCount,
            totalSize := (extractFiles entries).totalSize,
            owner := owner, repo := repo, branch := "main".toList } := by
  have hnotbig : ¬ MAX_REPO_SIZE_BYTES < meta.size * 1024 := not_lt.mpr hsize
  have hdl : (downloadArchive net fuel owner repo ("main".toList)).1 = Except.ok body := by
    simp only [downloadArchive, hmain]
    rw [if_pos trivial]
    simp only [hmaster]
  simp only [importRoute, hparse, effectiveBranch, hmeta, hnotbig, if_false, hdl, hdec,
    buildResponse, List.isEmpty_iff, hfiles, hupl]

/-- Witness for the amended C1 on the concrete fixture network. -/
theorem c1_fallback_reports_main_witness :
    importRoute netMainFails 1 parseMetaFix decodeZipFix uploadAllOk
        ("github.com/o/r".toList) none
      = ImportOutcome.success
          { fileCount := (uploadOutcome uploadAllOk (extractFiles zipEntriesFix).files).length,
            skippedCount := (extractFiles zipEntriesFix).skippedCount,
            totalSize := (extractFiles zipEntriesFix).totalSize,
            owner := "o".toList, repo := "r".toList, branch := "main".toList } := by
  exact c1_fallback_reports_main netMainFails 1 parseMetaFix decodeZipFix uploadAllOk
    ("github.com/o/r".toList) ("o".toList) ("r".toList) ⟨0⟩ [9, 9, 9] zipEntriesFix
    "HTTP 404" (by rfl) (by rfl) (by decide) (by rfl) (by rfl) (by rfl)
    (by decide) (by decide)

/-- C9: the branch component is never validated.  The identifier
allow-pattern is applied only to owner and repo, so a `/tree/` locator
with characters outside the pattern is accepted with that branch; a
branch supplied in the request body bypasses `parse` entirely; and the
branch string is interpolated verbatim into the archive URL. -/
theorem c9_branch_not_validated :
    parseGitHubUrl ("github.com/a/b/tree/x?$%".toList)
      = some ⟨"a".toList, "b".toList, "x?$%".toList⟩ ∧
    validPattern ("x?$%".toList) = false ∧
    effectiveBranch (some ("evil branch!".toList)) ("main".toList)
      = "evil branch!".toList ∧
    List.IsInfix ("x?$%".toList)
      (zipUrl ("a".toList) ("b".toList) ("x?$%".toList)) ∧
    zipUrl ("a".toList) ("b".toList) ("x?$%".toList)
      = "https://github.com/a/b/archive/refs/heads/x?$%.zip".toList := by
  refine ⟨by decide, by decide, by decide, by decide, by decide⟩

/-- C4 (evaluation at the failing input): with 11 files, every upload
is issued when `files.map` runs — the trace opens with all 11 issue
events — so the upload of file 10 (the sole member of batch 2) is
issued strictly before the upload of file 0 (batch 1) completes,
contrary to the claim (and the code's own comment) that batch 2's
uploads start only after batch 1 has completed. -/
theorem c4_uploads_issued_eagerly :
    uploadPhaseTrace 11
      = (List.range 11).map UploadEvent.issue ++ (List.range 11).map UploadEvent.complete ∧
    (uploadPhaseTrace 11).indexOf (UploadEvent.issue 10)
      < (uploadPhaseTrace 11).indexOf (UploadEvent.complete 0) := by
  exact ⟨by decide, by decide⟩

end GH
